import Mathlib

/-
  Verification development for the image-downloading core of the
  markdown_articles_tool repository.

  The repository carries two variants of the downloader:
  - the legacy script `src/images_extractor.py` (plain-string paths, inline
    content-hash deduplication, http/ftp scheme check), and
  - the package module `src/markdown_toolset/image_downloader.py`
    (pathlib paths, optional base URL for relative references, a pluggable
    deduplicator collaborator).

  Both are embedded shallowly below.  External collaborators (the network
  transport, the local filesystem, the `is_url` classifier of the missing
  `www_tools` module, and the cryptographic hash functions) are passed in as
  explicit function parameters; everything that the repository itself
  computes is translated from the source.
-/

set_option autoImplicit false

/-- Image content: a byte string, modelled as a list of naturals. -/
abbrev Content := List Nat

/-- The reference-to-document-path mapping: an insertion-ordered association
list, exactly like a Python `dict` restricted to the operations the source
uses (`in`, `items()` iteration, `setdefault`). -/
abbrev Mapping := List (String × String)

/-- First value bound to a key, scanning in insertion order
(Python `dict` lookup). -/
def lookupM : Mapping → String → Option String
  | [], _ => none
  | (k, v) :: rest, key => if k = key then some v else lookupM rest key

/-- Python `key in dict`. -/
def hasKey (m : Mapping) (k : String) : Bool :=
  (lookupM m k).isSome

/-- Python `dict.setdefault(k, v)`: insert at the end when the key is absent,
keep the dictionary unchanged when it is present. -/
def setdefault (m : Mapping) (k v : String) : Mapping :=
  if hasKey m k then m else m ++ [(k, v)]

/-- Lookup in the content-digest table of the legacy deduplication code
(`hash_to_path_mapping.get`). -/
def lookupH : List (Nat × String) → Nat → Option String
  | [], _ => none
  | (k, v) :: rest, key => if k = key then some v else lookupH rest key

/-- `isStart p s` holds when the character list `p` is an initial segment of
`s` (Python `str.startswith`). -/
def isStart : List Char → List Char → Bool
  | [], _ => true
  | _ :: _, [] => false
  | a :: as, b :: bs => a == b && isStart as bs

/-- Python `s.startswith(p)`. -/
def strStarts (s p : String) : Bool :=
  isStart p.data s.data

/-- Python `s.endswith(p)`. -/
def strEnds (s p : String) : Bool :=
  isStart p.data.reverse s.data.reverse

/-- POSIX `os.path.join` for two components, as used by the legacy script. -/
def pathJoin (a b : String) : String :=
  if strStarts b "/" then b
  else if a = "" then a ++ b
  else if strEnds a "/" then a ++ b
  else a ++ "/" ++ b

/-- Python `a or b` on strings: `a` when it is non-empty (truthy),
otherwise `b`.  Used for `img_public_path or img_dir_name`. -/
def pyOr (a b : String) : String :=
  if a = "" then b else a

/-- Observable side effects of one run: network fetch attempts, local file
read attempts, and file writes.  The source only logs besides these;
logging is not modelled. -/
inductive Event where
  | fetched (url : String)
  | readLocal (path : String)
  | wrote (path : String) (data : Content)
deriving DecidableEq, Repr

/-- Fatal outcomes of a run: the duplicate-reference `assert`, an
uncaught fetch/read exception, and an uncaught write exception. -/
inductive Fatal where
  | assertionError (url : String)
  | getImageError (url : String)
  | writeError (path : String)
deriving DecidableEq, Repr

/-- Decidable equality of run results, for evaluating concrete runs. -/
instance {ε α : Type} [DecidableEq ε] [DecidableEq α] : DecidableEq (Except ε α) := fun a b =>
  match a, b with
  | Except.error e1, Except.error e2 =>
    match decEq e1 e2 with
    | isTrue h => isTrue (h ▸ rfl)
    | isFalse h => isFalse (fun hc => h (by injection hc))
  | Except.ok a1, Except.ok a2 =>
    match decEq a1 a2 with
    | isTrue h => isTrue (h ▸ rfl)
    | isFalse h => isFalse (fun hc => h (by injection hc))
  | Except.error _, Except.ok _ => isFalse (fun hc => Except.noConfusion hc)
  | Except.ok _, Except.error _ => isFalse (fun hc => Except.noConfusion hc)

/- ----------------------------------------------------------------
   Legacy variant: `src/images_extractor.py`, class ImageDownloader.
   ---------------------------------------------------------------- -/

/-- Configuration of the legacy `ImageDownloader.__init__`.  `articleDir` is
`os.path.dirname(article_path)`, from which `__init__` derives the real
images directory. -/
structure LegacyConfig where
  skipList : List String
  skipAllErrors : Bool
  imgDirName : String
  imgPublicPath : String
  deduplication : Bool
  articleDir : String

/-- `self._images_dir = os.path.join(os.path.dirname(article_path),
img_dir_name)`. -/
def legacyImagesDir (cfg : LegacyConfig) : String :=
  pathJoin cfg.articleDir cfg.imgDirName

/-- The allowed URL scheme spellings of the legacy class attribute
`allowed_url_prefixes = {'http', 'ftp'}`.  The Python set iteration order is
unspecified but immaterial: the loop computes a disjunction. -/
def allowedUrlStarts : List String := ["http", "ftp"]

/-- Legacy `ImageDownloader._is_allowed_url_prefix`: true when the
reference string starts with one of the allowed spellings. -/
def isAllowedUrlStart (url : String) : Bool :=
  allowedUrlStarts.any (fun p => strStarts url p)

/-- Mutable state of one legacy `download_images` run: the replacement
mapping, the digest table `hash_to_path_mapping`, and the effect log. -/
structure LegacySt where
  mapping : Mapping
  hashToPath : List (Nat × String)
  events : List Event
deriving DecidableEq, Repr

section LegacyRun

variable (cfg : LegacyConfig)
variable (fetch : String → Option (String × Content))
variable (sha256 : Content → Nat)
variable (md5hex : String → String)

/-- Legacy `ImageDownloader._correct_paths`: scan the mapping in insertion
order; at the first entry whose path equals the candidate document path and
whose reference differs, rename the file to
`md5(img_url).hexdigest() + '_' + filename` and recompute the document path;
the renamed path is not re-checked. -/
def legacyCorrectPaths (m : Mapping) (docPath url fname : String) :
    String × String :=
  match m.find? (fun e => (e.2 == docPath) && (url != e.1)) with
  | some _ =>
    let f2 := md5hex url ++ "_" ++ fname
    (f2, pathJoin (pyOr cfg.imgPublicPath cfg.imgDirName) f2)
  | none => (fname, docPath)

/-- Common tail of the legacy loop body after the optional deduplication
check: compute the document path, disambiguate it against the mapping,
record the mapping entry and write the file. -/
def legacyTail (st : LegacySt) (url fname : String) (content : Content) :
    Except Fatal LegacySt :=
  let docPath := pathJoin (pyOr cfg.imgPublicPath cfg.imgDirName) fname
  let r := legacyCorrectPaths cfg md5hex st.mapping docPath url fname
  let realPath := pathJoin (legacyImagesDir cfg) r.1
  Except.ok { st with
    mapping := setdefault st.mapping url r.2,
    events := st.events ++ [Event.wrote realPath content] }

/-- One iteration of the legacy `download_images` loop.  The `fetch`
parameter stands for `self._download_image` composed with
`get_filename_from_url`: it yields the derived filename and the content
bytes, or `none` when the download raises.  The duplicate-reference
`assert` sits before the `try` block, so it is never recovered. -/
def legacyStep (st : LegacySt) (url : String) : Except Fatal LegacySt :=
  if hasKey st.mapping url then Except.error (Fatal.assertionError url)
  else if url ∈ cfg.skipList then Except.ok st
  else if ¬ isAllowedUrlStart url then Except.ok st
  else
    let st := { st with events := st.events ++ [Event.fetched url] }
    match fetch url with
    | none =>
      if cfg.skipAllErrors then Except.ok st
      else Except.error (Fatal.getImageError url)
    | some (fname, content) =>
      if cfg.deduplication then
        match lookupH st.hashToPath (sha256 content) with
        | some existed =>
          let docPath := pathJoin (pyOr cfg.imgPublicPath cfg.imgDirName) existed
          Except.ok { st with mapping := setdefault st.mapping url docPath }
        | none =>
          let st := { st with
            hashToPath := st.hashToPath ++ [(sha256 content, fname)] }
          legacyTail cfg md5hex st url fname content
      else legacyTail cfg md5hex st url fname content

/-- The legacy loop over the reference list, threading the run state;
a fatal outcome aborts the remaining iterations. -/
def legacyRun (refs : List String) (st : LegacySt) : Except Fatal LegacySt :=
  match refs with
  | [] => Except.ok st
  | u :: rest =>
    match legacyStep cfg fetch sha256 md5hex st u with
    | Except.error e => Except.error e
    | Except.ok st1 => legacyRun rest st1

/-- Legacy `ImageDownloader.download_images`, started from the empty run
state (fresh mapping, fresh digest table).  The `os.makedirs` call only
touches the filesystem and tolerates pre-existence; it is not modelled. -/
def legacyDownloadImages (refs : List String) : Except Fatal LegacySt :=
  legacyRun cfg fetch sha256 md5hex refs { mapping := [], hashToPath := [], events := [] }

end LegacyRun

/- ----------------------------------------------------------------
   Package variant: `src/markdown_toolset/image_downloader.py`.
   Paths are `pathlib` values there; a relative `PurePosixPath` is
   modelled by its tuple of parts.
   ---------------------------------------------------------------- -/

/-- The parts tuple of a `pathlib` path. -/
abbrev Parts := List String

/-- Split a character list at a separator character. -/
def splitChar (c : Char) : List Char → List (List Char)
  | [] => [[]]
  | ch :: rest =>
    let r := splitChar c rest
    if ch == c then [] :: r
    else
      match r with
      | [] => [[ch]]
      | g :: gs => (ch :: g) :: gs

/-- `PurePosixPath(s).parts` for the relative path strings this program
builds: split on the separator and drop empty components (repeated
separators collapse).  Root handling of absolute paths is not needed by
any input below. -/
def pathParts (s : String) : Parts :=
  ((splitChar '/' s.data).filter (fun g => !g.isEmpty)).map (fun g => String.mk g)

/-- `'/'.join(parts)`, the rendering the source stores in the mapping. -/
def joinSlash : Parts → String
  | [] => ""
  | [p] => p
  | p :: rest => p ++ "/" ++ joinSlash rest

/-- `pathlib` `/` operator on a relative right operand: append its parts. -/
def pathDiv (p : Parts) (s : String) : Parts :=
  p ++ pathParts s

/-- `PurePath.name`: the final path component, `''` when there is none. -/
def pathName (s : String) : String :=
  (pathParts s).getLastD ""

/-- A Python value that is either a `str` or a `pathlib` path.  The package
variant stores strings in the replacement mapping but compares them against
`Path` values in `_correct_paths`; Python `==` between the two types is
always `False` (both `__eq__` methods return `NotImplemented`). -/
inductive PyValue where
  | pstr (s : String)
  | ppath (p : Parts)

/-- Python `==` between possibly differently-typed values: value equality
within one type, `False` across types. -/
def pyEq : PyValue → PyValue → Bool
  | PyValue.pstr a, PyValue.pstr b => a == b
  | PyValue.ppath a, PyValue.ppath b => a == b
  | _, _ => false

/-- Configuration of the package `ImageDownloader.__init__`.
`articleParentDir` is `article_path.parent`; `imgPublicPath = none` models
the `img_public_path is None` default. -/
structure MTConfig where
  articleBaseUrl : String
  skipList : List String
  skipAllErrors : Bool
  imgDirName : Parts
  imgPublicPath : Option Parts
  processLocalImages : Bool
  articleParentDir : Parts

/-- `self._images_dir = self._article_file_path.parent / self._img_dir_name`. -/
def mtImagesDir (cfg : MTConfig) : Parts :=
  cfg.articleParentDir ++ cfg.imgDirName

/-- `ImageDownloader._get_document_img_path`: public path override when
configured, image directory name otherwise, extended by the filename. -/
def mtDocumentImgPath (cfg : MTConfig) (fname : String) : Parts :=
  pathDiv (cfg.imgPublicPath.getD cfg.imgDirName) fname

/-- `downloading_timeout if downloading_timeout > 0 else None` from
`ImageDownloader.__init__` (line 43): the value handed to the transport
call; `none` is the `requests` marker for an unbounded wait.  The float
seconds are modelled as rationals, which is exact for the comparison
involved. -/
def mtDownloadTimeoutField (t : Rat) : Option Rat :=
  if t > 0 then some t else none

/-- Run state of the package `download_images`. -/
structure MTSt where
  mapping : Mapping
  events : List Event
deriving DecidableEq, Repr

section MTRun

variable (cfg : MTConfig)
variable (isUrl : String → Bool)
variable (remote : String → Option (String × Content))
variable (readFile : String → Option Content)
variable (writeOk : String → Content → Bool)
variable (md5hex : String → String)

/-- Package `ImageDownloader._correct_paths`.  The candidate document path
is a `pathlib` value while the stored mapping values are strings, so the
comparison `document_img_path == path` is Python cross-type equality and
never succeeds. -/
def mtCorrectPaths (m : Mapping) (docPath : Parts) (url fname : String) :
    String × Parts :=
  match m.find? (fun e =>
      pyEq (PyValue.ppath docPath) (PyValue.pstr e.2) && (url != e.1)) with
  | some _ =>
    let f2 := md5hex url ++ "_" ++ fname
    (f2, mtDocumentImgPath cfg f2)
  | none => (fname, docPath)

/-- One iteration of the package `download_images` loop.

`isUrl` stands for `www_tools.is_url`; `remote` for `download_from_url`
composed with `get_filename_from_url` (both in the `www_tools` module,
which is absent from the sources), returning the derived filename and the
bytes, or `none` when the download raises; `readFile` for `open(...).read()`
on a local path; `writeOk` tells whether `_write_image` succeeds at a path.

The classification flag `image_path_is_url` is computed before the
base-URL rewrite and not recomputed afterwards; the `deduplicator`
collaborator is `None` (its module is absent from the sources), so the
deduplication block is a no-op and is omitted. -/
def mtStep (st : MTSt) (url0 : String) : Except Fatal MTSt :=
  if hasKey st.mapping url0 then Except.error (Fatal.assertionError url0)
  else if url0 ∈ cfg.skipList then Except.ok st
  else if ¬ isUrl url0 ∧ ¬ cfg.processLocalImages ∧ cfg.articleBaseUrl = "" then
    Except.ok st
  else
    let url :=
      if ¬ isUrl url0 ∧ ¬ cfg.processLocalImages then
        cfg.articleBaseUrl ++ "/" ++ url0
      else url0
    let st := { st with
      events := st.events ++
        [if isUrl url0 then Event.fetched url else Event.readLocal url] }
    match
      (if isUrl url0 then remote url
       else (readFile url).map (fun c => (pathName url, c))) with
    | none =>
      if cfg.skipAllErrors then Except.ok st
      else Except.error (Fatal.getImageError url)
    | some (fname, content) =>
      let docPath := mtDocumentImgPath cfg fname
      let r := mtCorrectPaths cfg md5hex st.mapping docPath url fname
      let realPath := joinSlash (pathDiv (mtImagesDir cfg) r.1)
      let st := { st with mapping := setdefault st.mapping url (joinSlash r.2) }
      if writeOk realPath content then
        Except.ok { st with events := st.events ++ [Event.wrote realPath content] }
      else Except.error (Fatal.writeError realPath)

/-- The package loop over the reference list. -/
def mtRun (refs : List String) (st : MTSt) : Except Fatal MTSt :=
  match refs with
  | [] => Except.ok st
  | u :: rest =>
    match mtStep cfg isUrl remote readFile writeOk md5hex st u with
    | Except.error e => Except.error e
    | Except.ok st1 => mtRun rest st1

/-- Package `ImageDownloader.download_images`, from the empty run state.
`mkdir(parents=True)` with `FileExistsError` swallowed only touches the
filesystem and is not modelled. -/
def mtDownloadImages (refs : List String) : Except Fatal MTSt :=
  mtRun cfg isUrl remote readFile writeOk md5hex refs { mapping := [], events := [] }

end MTRun

/- ----------------------------------------------------------------
   Legacy filename deriver: `get_filename_from_url` and `slugify`
   from `src/images_extractor.py`.
   ---------------------------------------------------------------- -/

/-- The whitespace characters of Python `str.strip()` / regex `\s`
(ASCII range). -/
def pySpaceChars : List Char := [' ', '\t', '\n', '\x0b', '\x0c', '\r']

/-- Python whitespace test on ASCII characters. -/
def pyIsSpaceC (c : Char) : Bool :=
  pySpaceChars.contains c

/-- Regex `\w` on ASCII characters: letters, digits, underscore. -/
def pyIsWordC (c : Char) : Bool :=
  c.isAlphanum || c == '_'

/-- Python `str.strip()`: drop whitespace from both ends. -/
def stripSpaces (l : List Char) : List Char :=
  ((l.dropWhile pyIsSpaceC).reverse.dropWhile pyIsSpaceC).reverse

/-- Worker for `collapseDashRuns`; the flag records whether the previous
character belonged to the current hyphen/whitespace run. -/
def collapseAux : Bool → List Char → List Char
  | _, [] => []
  | inRun, c :: rest =>
    if pyIsSpaceC c || c == '-' then
      if inRun then collapseAux true rest
      else '-' :: collapseAux true rest
    else c :: collapseAux false rest

/-- `re.sub(r'[-\s]+', '-', value)`: replace every maximal run of hyphens
and whitespace by a single hyphen. -/
def collapseDashRuns (l : List Char) : List Char :=
  collapseAux false l

/-- Legacy `slugify`: NFKD-normalize and encode to ASCII ignoring errors
(modelled as dropping non-ASCII code points, which is exact for the ASCII
inputs used below), remove characters outside `[\w\s-]`, strip, lowercase,
and collapse hyphen/whitespace runs to single hyphens. -/
def slugify (s : String) : String :=
  let ascii := s.data.filter (fun c => decide (c.toNat < 128))
  let kept := ascii.filter (fun c => pyIsWordC c || pyIsSpaceC c || c == '-')
  String.mk (collapseDashRuns ((stripSpaces kept).map Char.toLower))

/-- Index of the first occurrence of a character, `-1` when absent
(Python `str.find`). -/
def idxOf (c : Char) : List Char → Int
  | [] => -1
  | ch :: rest =>
    if ch == c then 0
    else
      let r := idxOf c rest
      if r = -1 then -1 else r + 1

/-- Python `req.url.find('/')`. -/
def pyFindSlash (s : String) : Int :=
  idxOf '/' s.data

/-- Python `s.rsplit('/', 1)`: split once at the last separator; a string
with no separator yields a one-element list. -/
def rsplitSlash1 (s : String) : List String :=
  if s.data.contains '/' then
    let after := (s.data.reverse.takeWhile (fun ch => ch != '/')).reverse
    let before := s.data.take (s.data.length - after.length - 1)
    [String.mk before, String.mk after]
  else [s]

/-- Index of the last occurrence of a character, `-1` when absent
(Python `str.rfind`). -/
def lastIdxOf (c : Char) (l : List Char) : Int :=
  if idxOf c l.reverse = -1 then -1
  else (l.length : Int) - 1 - idxOf c l.reverse

/-- `os.path.splitext` (POSIX): split off the extension at the last dot,
provided the dot lies after the last separator and the base name before it
is not made of dots only. -/
def pySplitext (p : String) : String × String :=
  let d := p.data
  let sepIdx := lastIdxOf '/' d
  let dotIdx := lastIdxOf '.' d
  if sepIdx < dotIdx then
    let between := (d.take dotIdx.toNat).drop (sepIdx + 1).toNat
    if between.any (fun ch => ch != '.') then
      (String.mk (d.take dotIdx.toNat), String.mk (d.drop dotIdx.toNat))
    else (p, "")
  else (p, "")

/-- The character list remaining after the first occurrence of `pat`,
`none` when `pat` does not occur. -/
def afterFirstOcc (pat : List Char) : List Char → Option (List Char)
  | [] => if pat.isEmpty then some [] else none
  | c :: rest =>
    if isStart pat (c :: rest) then some ((c :: rest).drop pat.length)
    else afterFirstOcc pat rest

/-- `re.findall('filename=(.+)', cd)` followed by the `len == 0` check and
`[0]`: the text after the first `filename=` occurrence, greedy to the end
of the (single-line ASCII) header value; `none` when there is no match. -/
def findallFilenameFirst (cd : String) : Option String :=
  match afterFirstOcc "filename=".data cd.data with
  | none => none
  | some r => if r.isEmpty then none else some (String.mk r)

/-- The data of an HTTP response that `get_filename_from_url` consults:
the resolved URL, the optional content-disposition header, and the
content-type header. -/
structure PyResponse where
  url : String
  contentDisposition : Option String
  contentType : String

/-- Python exceptions that the deriver itself can raise. -/
inductive PyErr where
  | indexError
deriving DecidableEq, Repr

/-- `req.headers['content-type'].partition(';')[0].strip()`. -/
def contentTypeMain (ct : String) : String :=
  String.mk (stripSpaces (ct.data.takeWhile (fun ch => ch != ';')))

/-- Rendering of `guess_extension`'s result inside the f-string: Python
formats the value `None` as the text `None`. -/
def pyGuessRender : Option String → String
  | some s => s
  | none => "None"

/-- Legacy `get_filename_from_url`.  `guessExtension` stands for
`mimetypes.guess_extension` over the stdlib table (with `.jpe` deleted
when the module loads).  The source tests `if req.url.find('/')`, i.e. the
truthiness of the index: the branch reading content-disposition runs only
when the URL starts with the separator (index 0); a URL without any
separator gives index `-1`, which is truthy, and `rsplit('/', 1)[1]` then
raises `IndexError`. -/
def get_filename_from_url (guessExtension : String → Option String)
    (req : PyResponse) : Except PyErr (Option String) :=
  let raw : Except PyErr (Option String) :=
    if pyFindSlash req.url ≠ 0 then
      match rsplitSlash1 req.url with
      | _ :: second :: _ => Except.ok (some second)
      | _ => Except.error PyErr.indexError
    else
      match req.contentDisposition with
      | none => Except.ok none
      | some cd =>
        match findallFilenameFirst cd with
        | none => Except.ok none
        | some fn => Except.ok (some fn)
  match raw with
  | Except.error e => Except.error e
  | Except.ok none => Except.ok none
  | Except.ok (some result) =>
    let fe := pySplitext result
    Except.ok (some
      (if fe.2 = "" then
        slugify fe.1 ++ pyGuessRender (guessExtension (contentTypeMain req.contentType))
      else slugify fe.1 ++ "." ++ slugify fe.2))

/- ----------------------------------------------------------------
   Helper lemmas.
   ---------------------------------------------------------------- -/

theorem lookupM_append (m1 m2 : Mapping) (u : String) :
    lookupM (m1 ++ m2) u =
      match lookupM m1 u with
      | some v => some v
      | none => lookupM m2 u := by
  induction m1 with
  | nil => simp [lookupM]
  | cons e rest ih =>
    obtain ⟨k, v⟩ := e
    by_cases h : k = u
    · simp [lookupM, h]
    · simp [lookupM, h, ih]

theorem hasKey_append_single (m : Mapping) (k v u : String) :
    hasKey (m ++ [(k, v)]) u = (hasKey m u || decide (k = u)) := by
  simp only [hasKey, lookupM_append]
  cases hm : lookupM m u with
  | some w => simp
  | none => by_cases h : k = u <;> simp [lookupM, h]

theorem setdefault_absent (m : Mapping) (k v : String) (h : hasKey m k = false) :
    setdefault m k v = m ++ [(k, v)] := by
  simp [setdefault, h]

theorem hasKey_setdefault (m : Mapping) (k v u : String) :
    hasKey (setdefault m k v) u = (hasKey m u || (!(hasKey m k) && decide (k = u))) := by
  by_cases h : hasKey m k = true
  · simp [setdefault, h]
  · simp only [Bool.not_eq_true] at h
    simp [setdefault, h, hasKey_append_single]

theorem lookupM_setdefault_ne (m : Mapping) (k v u : String) (h : ¬ k = u) :
    lookupM (setdefault m k v) u = lookupM m u := by
  unfold setdefault
  split
  · rfl
  · rw [lookupM_append]
    cases hm : lookupM m u <;> simp [lookupM, h]

theorem mtCorrectPaths_inert (cfg : MTConfig) (md5hex : String → String)
    (m : Mapping) (docPath : Parts) (url fname : String) :
    mtCorrectPaths cfg md5hex m docPath url fname = (fname, docPath) := by
  unfold mtCorrectPaths
  have h : m.find? (fun e =>
      pyEq (PyValue.ppath docPath) (PyValue.pstr e.2) && (url != e.1)) = none := by
    rw [List.find?_eq_none]
    intro e _
    simp [pyEq]
  rw [h]

theorem mtRun_append (cfg : MTConfig) (isUrl : String → Bool)
    (remote : String → Option (String × Content)) (readFile : String → Option Content)
    (writeOk : String → Content → Bool) (md5hex : String → String)
    (xs ys : List String) (st : MTSt) :
    mtRun cfg isUrl remote readFile writeOk md5hex (xs ++ ys) st =
      match mtRun cfg isUrl remote readFile writeOk md5hex xs st with
      | Except.ok st1 => mtRun cfg isUrl remote readFile writeOk md5hex ys st1
      | Except.error e => Except.error e := by
  induction xs generalizing st with
  | nil => simp [mtRun]
  | cons u rest ih =>
    simp only [List.cons_append, mtRun]
    cases mtStep cfg isUrl remote readFile writeOk md5hex st u with
    | error e => rfl
    | ok st1 => exact ih st1

theorem legacyRun_append (cfg : LegacyConfig) (fetch : String → Option (String × Content))
    (sha256 : Content → Nat) (md5hex : String → String)
    (xs ys : List String) (st : LegacySt) :
    legacyRun cfg fetch sha256 md5hex (xs ++ ys) st =
      match legacyRun cfg fetch sha256 md5hex xs st with
      | Except.ok st1 => legacyRun cfg fetch sha256 md5hex ys st1
      | Except.error e => Except.error e := by
  induction xs generalizing st with
  | nil => simp [legacyRun]
  | cons u rest ih =>
    simp only [List.cons_append, legacyRun]
    cases legacyStep cfg fetch sha256 md5hex st u with
    | error e => rfl
    | ok st1 => exact ih st1

theorem strAppend_cancel {a x y : String} (h : a ++ x = a ++ y) : x = y := by
  have hd : a.data ++ x.data = a.data ++ y.data := by
    have h2 := congrArg String.data h
    rwa [String.data_append, String.data_append] at h2
  exact String.ext (List.append_cancel_left hd)

theorem pathJoin_right_cancel {d x y : String}
    (hx : strStarts x "/" = false) (hy : strStarts y "/" = false)
    (h : pathJoin d x = pathJoin d y) : x = y := by
  unfold pathJoin at h
  rw [hx, hy] at h
  simp only [Bool.false_eq_true, if_false] at h
  by_cases hd : d = ""
  · rw [if_pos hd, if_pos hd] at h
    exact strAppend_cancel h
  · rw [if_neg hd, if_neg hd] at h
    by_cases he : strEnds d "/" = true
    · rw [if_pos he, if_pos he] at h
      exact strAppend_cancel h
    · simp only [Bool.not_eq_true] at he
      rw [he] at h
      simp only [Bool.false_eq_true, if_false] at h
      exact strAppend_cancel (strAppend_cancel (String.append_assoc d "/" x ▸ String.append_assoc d "/" y ▸ h))

theorem ne_hashRenamed (m f : String) : f ≠ m ++ "_" ++ f := by
  intro h
  have h2 := congrArg (fun s => s.data.length) h
  simp only [String.data_append, List.length_append] at h2
  have h3 : ("_" : String).data.length = 1 := rfl
  rw [h3] at h2
  omega

/-- Behaviour of one package-variant iteration on a fresh, non-skipped
remote reference: a failing fetch either skips or aborts according to the
flag; a successful fetch records the mapping entry and writes, unless the
write itself fails, which aborts unconditionally. -/
theorem mtStep_remote (cfg : MTConfig) (isUrl : String → Bool)
    (remote : String → Option (String × Content)) (readFile : String → Option Content)
    (writeOk : String → Content → Bool) (md5hex : String → String)
    (st : MTSt) (u : String)
    (h1 : hasKey st.mapping u = false) (h2 : u ∉ cfg.skipList) (h3 : isUrl u = true) :
    mtStep cfg isUrl remote readFile writeOk md5hex st u =
      match remote u with
      | none =>
        if cfg.skipAllErrors then
          Except.ok { st with events := st.events ++ [Event.fetched u] }
        else Except.error (Fatal.getImageError u)
      | some (fname, content) =>
        if writeOk (joinSlash (pathDiv (mtImagesDir cfg) fname)) content then
          Except.ok
            { mapping := setdefault st.mapping u (joinSlash (mtDocumentImgPath cfg fname)),
              events := st.events ++
                [Event.fetched u,
                 Event.wrote (joinSlash (pathDiv (mtImagesDir cfg) fname)) content] }
        else Except.error (Fatal.writeError (joinSlash (pathDiv (mtImagesDir cfg) fname))) := by
  cases hr : remote u with
  | none => simp [mtStep, h1, h2, h3, hr]
  | some fc =>
    obtain ⟨fname, content⟩ := fc
    by_cases hw : writeOk (joinSlash (pathDiv (mtImagesDir cfg) fname)) content = true
    · simp [mtStep, h1, h2, h3, hr, hw, mtCorrectPaths_inert]
    · simp only [Bool.not_eq_true] at hw
      simp [mtStep, h1, h2, h3, hr, hw, mtCorrectPaths_inert]

/-- Under `skip_all_errors`, with an empty skip list, all references remote,
no duplicates, fresh keys and a reliable writer, the package run completes,
and a reference ends up as a mapping key exactly when it was already one or
its fetch succeeds. -/
theorem mtRun_skipAll_ok (cfg : MTConfig) (isUrl : String → Bool)
    (remote : String → Option (String × Content)) (readFile : String → Option Content)
    (writeOk : String → Content → Bool) (md5hex : String → String)
    (hsa : cfg.skipAllErrors = true) (hsk : cfg.skipList = [])
    (hw : ∀ p c, writeOk p c = true) :
    ∀ (refs : List String) (st : MTSt), (∀ v ∈ refs, isUrl v = true) → refs.Nodup →
    (∀ v ∈ refs, hasKey st.mapping v = false) →
    ∃ st1, mtRun cfg isUrl remote readFile writeOk md5hex refs st = Except.ok st1 ∧
      ∀ u, hasKey st1.mapping u =
        (hasKey st.mapping u || (decide (u ∈ refs) && (remote u).isSome)) := by
  intro refs
  induction refs with
  | nil =>
    intro st _ _ _
    exact ⟨st, rfl, by simp⟩
  | cons v rest ih =>
    intro st hurl hnd hfresh
    obtain ⟨hvr, hndr⟩ := List.nodup_cons.mp hnd
    have hv : isUrl v = true := hurl v (by simp)
    have hkv : hasKey st.mapping v = false := hfresh v (by simp)
    have hvs : v ∉ cfg.skipList := by simp [hsk]
    have hstep := mtStep_remote cfg isUrl remote readFile writeOk md5hex st v hkv hvs hv
    cases hr : remote v with
    | none =>
      rw [hr, hsa, if_pos rfl] at hstep
      obtain ⟨st1, hrun, hkeys⟩ :=
        ih { st with events := st.events ++ [Event.fetched v] }
          (fun w hwm => hurl w (by simp [hwm])) hndr
          (fun w hwm => hfresh w (by simp [hwm]))
      refine ⟨st1, ?_, ?_⟩
      · simp only [mtRun, hstep, hrun]
      · intro u
        rw [hkeys u]
        by_cases hu : u = v
        · subst hu
          simp [hr, hvr]
        · simp [List.mem_cons, hu]
    | some fc =>
      obtain ⟨fname, content⟩ := fc
      rw [hr] at hstep
      simp only [hw, if_true] at hstep
      set stA : MTSt :=
        { mapping := setdefault st.mapping v (joinSlash (mtDocumentImgPath cfg fname)),
          events := st.events ++
            [Event.fetched v,
             Event.wrote (joinSlash (pathDiv (mtImagesDir cfg) fname)) content] } with hstA
      have hfreshA : ∀ w ∈ rest, hasKey stA.mapping w = false := by
        intro w hwm
        have hw1 : hasKey st.mapping w = false := hfresh w (by simp [hwm])
        have hvw : ¬ v = w := fun hvw => hvr (hvw ▸ hwm)
        simp [hstA, hasKey_setdefault, hw1, hkv, hvw]
      obtain ⟨st1, hrun, hkeys⟩ :=
        ih stA (fun w hwm => hurl w (by simp [hwm])) hndr hfreshA
      refine ⟨st1, ?_, ?_⟩
      · simp only [mtRun, hstep, hrun]
      · intro u
        rw [hkeys u]
        by_cases hu : u = v
        · subst hu
          simp [hstA, hasKey_setdefault, hkv, hr, hvr]
        · have hvu : ¬ v = u := fun h => hu h.symm
          simp [hstA, hasKey_setdefault, hkv, List.mem_cons, hu, hvu]

/-- Without `skip_all_errors`, a reachable failing fetch anywhere in the
list makes the whole package run abort with an error. -/
theorem mtRun_fail_aborts (cfg : MTConfig) (isUrl : String → Bool)
    (remote : String → Option (String × Content)) (readFile : String → Option Content)
    (writeOk : String → Content → Bool) (md5hex : String → String)
    (hsa : cfg.skipAllErrors = false) (hsk : cfg.skipList = []) :
    ∀ (refs : List String) (st : MTSt), (∀ v ∈ refs, isUrl v = true) →
    (∀ v ∈ refs, hasKey st.mapping v = false) → refs.Nodup →
    ∀ u, u ∈ refs → remote u = none →
    ∃ e, mtRun cfg isUrl remote readFile writeOk md5hex refs st = Except.error e := by
  intro refs
  induction refs with
  | nil =>
    intro st _ _ _ u hu
    exact absurd hu (List.not_mem_nil u)
  | cons v rest ih =>
    intro st hurl hfresh hnd u hu hru
    obtain ⟨hvr, hndr⟩ := List.nodup_cons.mp hnd
    have hv : isUrl v = true := hurl v (by simp)
    have hkv : hasKey st.mapping v = false := hfresh v (by simp)
    have hvs : v ∉ cfg.skipList := by simp [hsk]
    have hstep := mtStep_remote cfg isUrl remote readFile writeOk md5hex st v hkv hvs hv
    rcases List.mem_cons.mp hu with huv | hur
    · subst huv
      rw [hru, hsa, if_neg (by simp)] at hstep
      exact ⟨Fatal.getImageError u, by simp only [mtRun, hstep]⟩
    · cases hr : remote v with
      | none =>
        rw [hr, hsa, if_neg (by simp)] at hstep
        exact ⟨Fatal.getImageError v, by simp only [mtRun, hstep]⟩
      | some fc =>
        obtain ⟨fname, content⟩ := fc
        rw [hr] at hstep
        by_cases hwk : writeOk (joinSlash (pathDiv (mtImagesDir cfg) fname)) content = true
        · simp only [hwk, if_true] at hstep
          set stA : MTSt :=
            { mapping := setdefault st.mapping v (joinSlash (mtDocumentImgPath cfg fname)),
              events := st.events ++
                [Event.fetched v,
                 Event.wrote (joinSlash (pathDiv (mtImagesDir cfg) fname)) content] } with hstA
          have hfreshA : ∀ w ∈ rest, hasKey stA.mapping w = false := by
            intro w hwm
            have hw1 : hasKey st.mapping w = false := hfresh w (by simp [hwm])
            have hvw : ¬ v = w := fun hvw => hvr (hvw ▸ hwm)
            simp [hstA, hasKey_setdefault, hw1, hkv, hvw]
          obtain ⟨e, herr⟩ :=
            ih stA (fun w hwm => hurl w (by simp [hwm])) hfreshA hndr u hur hru
          exact ⟨e, by simp only [mtRun, hstep, herr]⟩
        · simp only [Bool.not_eq_true] at hwk
          simp only [hwk, Bool.false_eq_true, if_false] at hstep
          exact ⟨Fatal.writeError (joinSlash (pathDiv (mtImagesDir cfg) fname)),
            by simp only [mtRun, hstep]⟩

/-- Anatomy of a successful legacy iteration: a reference that is not an
allowed URL leaves the state untouched; otherwise the mapping grows at most
by a `setdefault` for this reference, old events persist, and every new
event is this reference's fetch attempt or a write. -/
theorem legacyStep_ok_cases (cfg : LegacyConfig) (fetch : String → Option (String × Content))
    (sha256 : Content → Nat) (md5hex : String → String) (st : LegacySt) (u : String)
    (st1 : LegacySt) (h : legacyStep cfg fetch sha256 md5hex st u = Except.ok st1) :
    (isAllowedUrlStart u = false → st1 = st) ∧
    (st1.mapping = st.mapping ∨ ∃ p, st1.mapping = setdefault st.mapping u p) ∧
    (∀ e ∈ st.events, e ∈ st1.events) ∧
    (∀ e ∈ st1.events, e ∈ st.events ∨ e = Event.fetched u ∨ ∃ q c, e = Event.wrote q c) := by
  simp only [legacyStep] at h
  split at h
  · exact absurd h (by simp)
  · split at h
    · injection h with h2
      subst h2
      exact ⟨fun _ => rfl, Or.inl rfl, fun e he => he, fun e he => Or.inl he⟩
    · split at h
      · injection h with h2
        subst h2
        exact ⟨fun _ => rfl, Or.inl rfl, fun e he => he, fun e he => Or.inl he⟩
      · rename_i hal0
        have hal : isAllowedUrlStart u = true := by
          by_cases hb : isAllowedUrlStart u = true
          · exact hb
          · exact absurd (by simpa using hb) hal0
        refine And.intro (fun hf => by simp [hf] at hal) ?_
        split at h
        · split at h
          · injection h with h2
            subst h2
            refine ⟨Or.inl rfl, fun e he => by simp [he], fun e he => ?_⟩
            simp only [List.mem_append, List.mem_singleton] at he
            rcases he with h3 | h3
            · exact Or.inl h3
            · exact Or.inr (Or.inl h3)
          · exact absurd h (by simp)
        · split at h
          · split at h
            · injection h with h2
              subst h2
              refine ⟨Or.inr ⟨_, rfl⟩, fun e he => by simp [he], fun e he => ?_⟩
              simp only [List.mem_append, List.mem_singleton] at he
              rcases he with h3 | h3
              · exact Or.inl h3
              · exact Or.inr (Or.inl h3)
            · simp only [legacyTail] at h
              injection h with h2
              subst h2
              refine ⟨Or.inr ⟨_, rfl⟩, fun e he => by simp [he], fun e he => ?_⟩
              simp only [List.mem_append, List.mem_singleton] at he
              rcases he with (h3 | h3) | h3
              · exact Or.inl h3
              · exact Or.inr (Or.inl h3)
              · exact Or.inr (Or.inr ⟨_, _, h3⟩)
          · simp only [legacyTail] at h
            injection h with h2
            subst h2
            refine ⟨Or.inr ⟨_, rfl⟩, fun e he => by simp [he], fun e he => ?_⟩
            simp only [List.mem_append, List.mem_singleton] at he
            rcases he with (h3 | h3) | h3
            · exact Or.inl h3
            · exact Or.inr (Or.inl h3)
            · exact Or.inr (Or.inr ⟨_, _, h3⟩)

/-- A successful legacy iteration on a non-skipped allowed reference always
records the fetch attempt in the event log (whether or not the download,
deduplication or write path was taken). -/
theorem legacyStep_ok_fetched (cfg : LegacyConfig) (fetch : String → Option (String × Content))
    (sha256 : Content → Nat) (md5hex : String → String) (st : LegacySt) (u : String)
    (st1 : LegacySt) (h : legacyStep cfg fetch sha256 md5hex st u = Except.ok st1)
    (hsk : u ∉ cfg.skipList) (hal : isAllowedUrlStart u = true) :
    Event.fetched u ∈ st1.events := by
  simp only [legacyStep] at h
  split at h
  · exact absurd h (by simp)
  · split at h
    · split at h
      · injection h with h2
        subst h2
        simp
      · exact absurd h (by simp)
    · split at h
      · split at h
        · injection h with h2
          subst h2
          simp
        · simp only [legacyTail] at h
          injection h with h2
          subst h2
          simp
      · simp only [legacyTail] at h
        injection h with h2
        subst h2
        simp

/-- Over a whole successful legacy run, a reference that is not an allowed
URL never gains a mapping entry and never gains a fetch event. -/
theorem legacyRun_ok_preserve (cfg : LegacyConfig) (fetch : String → Option (String × Content))
    (sha256 : Content → Nat) (md5hex : String → String) :
    ∀ (refs : List String) (st st1 : LegacySt),
    legacyRun cfg fetch sha256 md5hex refs st = Except.ok st1 →
    ∀ u, isAllowedUrlStart u = false →
      lookupM st1.mapping u = lookupM st.mapping u ∧
      (Event.fetched u ∈ st1.events ↔ Event.fetched u ∈ st.events) := by
  intro refs
  induction refs with
  | nil =>
    intro st st1 hrun u _
    simp only [legacyRun] at hrun
    injection hrun with h2
    subst h2
    exact ⟨rfl, Iff.rfl⟩
  | cons v rest ih =>
    intro st st1 hrun u hal
    simp only [legacyRun] at hrun
    cases hs : legacyStep cfg fetch sha256 md5hex st v with
    | error e => rw [hs] at hrun; exact absurd hrun (by simp)
    | ok st2 =>
      rw [hs] at hrun
      obtain ⟨hunch, hmap, hemon, hemem⟩ :=
        legacyStep_ok_cases cfg fetch sha256 md5hex st v st2 hs
      obtain ⟨hl1, he1⟩ := ih st2 st1 hrun u hal
      by_cases hvu : v = u
      · subst hvu
        rw [hunch hal] at hl1 he1
        exact ⟨hl1, he1⟩
      · constructor
        · rw [hl1]
          rcases hmap with hm | ⟨p, hm⟩
          · rw [hm]
          · rw [hm, lookupM_setdefault_ne st.mapping v p u hvu]
        · rw [he1]
          constructor
          · intro hin
            rcases hemem (Event.fetched u) hin with h3 | h3 | ⟨q, c, h3⟩
            · exact h3
            · exact absurd (by injection h3 with h4; exact h4.symm) hvu
            · cases h3
          · exact hemon (Event.fetched u)

/-- Events only accumulate over a successful legacy run. -/
theorem legacyRun_ok_events_mono (cfg : LegacyConfig) (fetch : String → Option (String × Content))
    (sha256 : Content → Nat) (md5hex : String → String) :
    ∀ (refs : List String) (st st1 : LegacySt),
    legacyRun cfg fetch sha256 md5hex refs st = Except.ok st1 →
    ∀ e ∈ st.events, e ∈ st1.events := by
  intro refs
  induction refs with
  | nil =>
    intro st st1 hrun e he
    simp only [legacyRun] at hrun
    injection hrun with h2
    subst h2
    exact he
  | cons v rest ih =>
    intro st st1 hrun e he
    simp only [legacyRun] at hrun
    cases hs : legacyStep cfg fetch sha256 md5hex st v with
    | error e2 => rw [hs] at hrun; exact absurd hrun (by simp)
    | ok st2 =>
      rw [hs] at hrun
      obtain ⟨_, _, hemon, _⟩ := legacyStep_ok_cases cfg fetch sha256 md5hex st v st2 hs
      exact ih st2 st1 hrun e (hemon e he)

/-- Over a whole successful legacy run, every listed reference that is
allowed and not skipped has its fetch attempt recorded in the event log. -/
theorem legacyRun_ok_fetched (cfg : LegacyConfig) (fetch : String → Option (String × Content))
    (sha256 : Content → Nat) (md5hex : String → String) :
    ∀ (refs : List String) (st st1 : LegacySt),
    legacyRun cfg fetch sha256 md5hex refs st = Except.ok st1 →
    ∀ u ∈ refs, u ∉ cfg.skipList → isAllowedUrlStart u = true →
      Event.fetched u ∈ st1.events := by
  intro refs
  induction refs with
  | nil =>
    intro st st1 _ u hu
    exact absurd hu (List.not_mem_nil u)
  | cons v rest ih =>
    intro st st1 hrun u hu hsk hal
    simp only [legacyRun] at hrun
    cases hs : legacyStep cfg fetch sha256 md5hex st v with
    | error e => rw [hs] at hrun; exact absurd hrun (by simp)
    | ok st2 =>
      rw [hs] at hrun
      rcases List.mem_cons.mp hu with huv | hur
      · subst huv
        exact legacyRun_ok_events_mono cfg fetch sha256 md5hex rest st2 st1 hrun
          (Event.fetched u)
          (legacyStep_ok_fetched cfg fetch sha256 md5hex st u st2 hs hsk hal)
      · exact ih st2 st1 hrun u hur hsk hal

/- ----------------------------------------------------------------
   Claim theorems.
   ---------------------------------------------------------------- -/

/-- C7: for a configured downloading timeout `t`, the package-variant
constructor passes `t` to the transport call when `t > 0`, and passes the
`None` marker, which `requests` treats as an unbounded wait rather than an
error, when `t` is non-positive (the unset default is `-1`, also
non-positive). -/
theorem timeout_field_semantics (t : Rat) :
    (0 < t → mtDownloadTimeoutField t = some t) ∧
    (t ≤ 0 → mtDownloadTimeoutField t = none) := by
  constructor
  · intro h
    simp [mtDownloadTimeoutField, h]
  · intro h
    simp [mtDownloadTimeoutField, not_lt.mpr h]

/-- Witness for `timeout_field_semantics` at `t = 2` and `t = -1`. -/
theorem timeout_field_semantics_witness :
    mtDownloadTimeoutField 2 = some 2 ∧ mtDownloadTimeoutField (-1) = none :=
  ⟨(timeout_field_semantics 2).1 (by norm_num),
   (timeout_field_semantics (-1)).2 (by norm_num)⟩

/-- C8: the legacy filename deriver does not behave as claimed.  Because
the source tests `if req.url.find('/')` (truthiness of an index), a
resolved URL without any separator makes `rsplit('/', 1)[1]` raise
`IndexError` instead of using the segment, and a URL whose final segment is
empty (`"http://e.com/"`) is processed from that empty segment — yielding
just a guessed extension — while the content-disposition header carrying
`filename=cat.png` is never consulted. -/
theorem get_filename_from_url_branch_bug :
    get_filename_from_url (fun ct => if ct = "image/png" then some ".png" else none)
      { url := "image.png", contentDisposition := some "filename=cat.png",
        contentType := "image/png" } = Except.error PyErr.indexError ∧
    get_filename_from_url (fun ct => if ct = "image/png" then some ".png" else none)
      { url := "http://e.com/", contentDisposition := some "filename=cat.png",
        contentType := "image/png" } = Except.ok (some ".png") := by
  exact ⟨by decide, by decide⟩

/-- C1: in the package variant, two distinct references with different
content that derive the same filename both resolve to the document path
`images/x.png`, and the second write goes to the same real path as the
first, overwriting it: `_correct_paths` compares a `pathlib.Path` against
the `str` stored in the mapping, which is always `False` in Python, so the
claimed pairwise distinctness of mapping values fails at this input. -/
theorem mt_download_images_path_aliasing :
    mtDownloadImages
      { articleBaseUrl := "", skipList := [], skipAllErrors := false,
        imgDirName := ["images"], imgPublicPath := none,
        processLocalImages := false, articleParentDir := ["doc"] }
      (fun s => strStarts s "http")
      (fun u => if u = "http://a/x.png" then some ("x.png", [1])
                else if u = "http://b/x.png" then some ("x.png", [2]) else none)
      (fun _ => none) (fun _ _ => true)
      (fun _ => "d41d8cd98f00b204e9800998ecf8427e")
      ["http://a/x.png", "http://b/x.png"]
    = Except.ok
        { mapping := [("http://a/x.png", "images/x.png"),
                      ("http://b/x.png", "images/x.png")],
          events := [Event.fetched "http://a/x.png",
                     Event.wrote "doc/images/x.png" [1],
                     Event.fetched "http://b/x.png",
                     Event.wrote "doc/images/x.png" [2]] } := by
  rfl

/-- C6 counterexample: the same reference occurs twice, is in no skip set,
its download fails, and `skip_all_errors` is set; the run completes
normally instead of failing fatally, because the first occurrence never
reached the mapping, so the duplicate `assert` does not fire. -/
theorem duplicate_reference_recovered_counterexample :
    mtDownloadImages
      { articleBaseUrl := "", skipList := [], skipAllErrors := true,
        imgDirName := ["images"], imgPublicPath := none,
        processLocalImages := false, articleParentDir := ["doc"] }
      (fun s => strStarts s "http") (fun _ => none) (fun _ => none)
      (fun _ _ => true) (fun _ => "d41d8cd98f00b204e9800998ecf8427e")
      ["http://a/x.png", "http://a/x.png"]
    = Except.ok
        { mapping := [],
          events := [Event.fetched "http://a/x.png",
                     Event.fetched "http://a/x.png"] } := by
  rfl

/-- C2 counterexample: `http://a/x.png` and `http://b/y.png` carry
byte-identical content `[2]` with deduplication enabled, yet they resolve
to different document paths: the digest table registered `x.png` before the
collision resolver renamed the first occurrence (which collided with the
earlier `http://c/x.png`), so the second occurrence reuses the stale,
unrenamed filename and even aliases the unrelated first file. -/
theorem legacy_dedup_rename_counterexample :
    legacyDownloadImages
      { skipList := [], skipAllErrors := false, imgDirName := "images",
        imgPublicPath := "", deduplication := true, articleDir := "doc" }
      (fun u => if u = "http://c/x.png" then some ("x.png", [1])
                else if u = "http://a/x.png" then some ("x.png", [2])
                else if u = "http://b/y.png" then some ("y.png", [2]) else none)
      (fun c => c.headD 0)
      (fun _ => "9f86d081884c7d659a2feaa0c55ad015")
      ["http://c/x.png", "http://a/x.png", "http://b/y.png"]
    = Except.ok
        { mapping := [("http://c/x.png", "images/x.png"),
                      ("http://a/x.png", "images/9f86d081884c7d659a2feaa0c55ad015_x.png"),
                      ("http://b/y.png", "images/x.png")],
          hashToPath := [(1, "x.png"), (2, "x.png")],
          events := [Event.fetched "http://c/x.png",
                     Event.wrote "doc/images/x.png" [1],
                     Event.fetched "http://a/x.png",
                     Event.wrote "doc/images/9f86d081884c7d659a2feaa0c55ad015_x.png" [2],
                     Event.fetched "http://b/y.png"] } := by
  rfl

/-- `strStarts s "/"` only looks at the first character of `s`. -/
theorem strStarts_slash_head (s : String) :
    strStarts s "/" = match s.data with | [] => false | c :: _ => ('/' == c) := by
  unfold strStarts
  have h : ("/" : String).data = ['/'] := rfl
  rw [h]
  cases s.data with
  | nil => rfl
  | cons c cs => simp [isStart]

/-- A hash-renamed filename does not start with the separator when the
hash text does not. -/
theorem strStarts_hash_rename (a f : String) (ha : strStarts a "/" = false) :
    strStarts (a ++ "_" ++ f) "/" = false := by
  rw [strStarts_slash_head] at ha ⊢
  have hd : (a ++ "_" ++ f).data = a.data ++ '_' :: f.data := by
    simp [String.data_append]
  rw [hd]
  cases h2 : a.data with
  | nil => simp
  | cons c cs =>
    rw [h2] at ha
    simpa using ha

/-- C3: collision law.  First conjunct (legacy variant, where the claim
holds): in a run of the two references, the first keeps its derived
filename `f` and the second is renamed to `md5(reference2) + "_" + f`,
with the two recorded document paths different.  Second conjunct (package
variant, where the claimed renaming never happens): at the claim's own
example references, the second mapping value is again `images/x.png`, not
the hash-prefixed name, because `_correct_paths` compares a `pathlib.Path`
against a stored `str` and Python cross-type equality is always `False`. -/
theorem collision_rename_law
    (cfg : LegacyConfig) (fetch : String → Option (String × Content))
    (sha256 : Content → Nat) (md5hex : String → String)
    (u1 u2 f : String) (c1 c2 : Content)
    (h12 : u1 ≠ u2)
    (hs1 : u1 ∉ cfg.skipList) (hs2 : u2 ∉ cfg.skipList)
    (hded : cfg.deduplication = false)
    (ha1 : isAllowedUrlStart u1 = true) (ha2 : isAllowedUrlStart u2 = true)
    (hf1 : fetch u1 = some (f, c1)) (hf2 : fetch u2 = some (f, c2))
    (_hcc : c1 ≠ c2)
    (hfs : strStarts f "/" = false) (hms : strStarts (md5hex u2) "/" = false) :
    (legacyDownloadImages cfg fetch sha256 md5hex [u1, u2] = Except.ok
      { mapping := [(u1, pathJoin (pyOr cfg.imgPublicPath cfg.imgDirName) f),
                    (u2, pathJoin (pyOr cfg.imgPublicPath cfg.imgDirName)
                           (md5hex u2 ++ "_" ++ f))],
        hashToPath := [],
        events := [Event.fetched u1,
                   Event.wrote (pathJoin (legacyImagesDir cfg) f) c1,
                   Event.fetched u2,
                   Event.wrote (pathJoin (legacyImagesDir cfg) (md5hex u2 ++ "_" ++ f)) c2] }
     ∧ pathJoin (pyOr cfg.imgPublicPath cfg.imgDirName) f ≠
         pathJoin (pyOr cfg.imgPublicPath cfg.imgDirName) (md5hex u2 ++ "_" ++ f)) ∧
    mtDownloadImages
      { articleBaseUrl := "", skipList := [], skipAllErrors := false,
        imgDirName := ["images"], imgPublicPath := none,
        processLocalImages := false, articleParentDir := ["doc"] }
      (fun s => strStarts s "http")
      (fun u => if u = "http://a.com/x.png" then some ("x.png", [1])
                else if u = "http://b.com/x.png" then some ("x.png", [2]) else none)
      (fun _ => none) (fun _ _ => true)
      (fun _ => "5d41402abc4b2a76b9719d911017c592")
      ["http://a.com/x.png", "http://b.com/x.png"]
    = Except.ok
        { mapping := [("http://a.com/x.png", "images/x.png"),
                      ("http://b.com/x.png", "images/x.png")],
          events := [Event.fetched "http://a.com/x.png",
                     Event.wrote "doc/images/x.png" [1],
                     Event.fetched "http://b.com/x.png",
                     Event.wrote "doc/images/x.png" [2]] } := by
  refine ⟨⟨?_, ?_⟩, by rfl⟩
  · have step1 : legacyStep cfg fetch sha256 md5hex ⟨[], [], []⟩ u1 = Except.ok
        ⟨[(u1, pathJoin (pyOr cfg.imgPublicPath cfg.imgDirName) f)], [],
         [Event.fetched u1, Event.wrote (pathJoin (legacyImagesDir cfg) f) c1]⟩ := by
      simp [legacyStep, hasKey, lookupM, hs1, ha1, hf1, hded, legacyTail,
        legacyCorrectPaths, setdefault]
    have step2 : legacyStep cfg fetch sha256 md5hex
        ⟨[(u1, pathJoin (pyOr cfg.imgPublicPath cfg.imgDirName) f)], [],
         [Event.fetched u1, Event.wrote (pathJoin (legacyImagesDir cfg) f) c1]⟩ u2
        = Except.ok
        ⟨[(u1, pathJoin (pyOr cfg.imgPublicPath cfg.imgDirName) f),
          (u2, pathJoin (pyOr cfg.imgPublicPath cfg.imgDirName) (md5hex u2 ++ "_" ++ f))],
         [],
         [Event.fetched u1, Event.wrote (pathJoin (legacyImagesDir cfg) f) c1,
          Event.fetched u2,
          Event.wrote (pathJoin (legacyImagesDir cfg) (md5hex u2 ++ "_" ++ f)) c2]⟩ := by
      have hne : ¬ u1 = u2 := h12
      have hne2 : ¬ u2 = u1 := fun h => h12 h.symm
      have hb2 : (u2 != u1) = true := by simp [hne2]
      simp [legacyStep, hasKey, lookupM, hs2, ha2, hf2, hded, legacyTail,
        legacyCorrectPaths, setdefault, hne, hne2, hb2, List.find?]
    simp only [legacyDownloadImages, legacyRun, step1, step2]
  · intro heq
    have h2 := pathJoin_right_cancel hfs (strStarts_hash_rename (md5hex u2) f hms) heq
    exact ne_hashRenamed (md5hex u2) f h2

/-- C2 (amended): legacy dedup law for a pair.  When references `A` and
`B` (in that order, with nothing before them) yield byte-identical content
and deduplication is enabled, both are recorded under the document path
built from `A`'s filename — the filename registered for the digest at the
first occurrence — and the file is written exactly once, by `A`; `B`'s
iteration records its mapping entry without writing.  (The unamended claim
fails when an earlier reference forces the collision resolver to rename
`A`, because the digest table keeps the pre-rename filename; see the
counterexample.) -/
theorem legacy_dedup_pair_law
    (cfg : LegacyConfig) (fetch : String → Option (String × Content))
    (sha256 : Content → Nat) (md5hex : String → String)
    (A B fA fB : String) (c : Content)
    (hAB : A ≠ B)
    (hsA : A ∉ cfg.skipList) (hsB : B ∉ cfg.skipList)
    (hded : cfg.deduplication = true)
    (haA : isAllowedUrlStart A = true) (haB : isAllowedUrlStart B = true)
    (hfA : fetch A = some (fA, c)) (hfB : fetch B = some (fB, c)) :
    legacyDownloadImages cfg fetch sha256 md5hex [A, B] = Except.ok
      { mapping := [(A, pathJoin (pyOr cfg.imgPublicPath cfg.imgDirName) fA),
                    (B, pathJoin (pyOr cfg.imgPublicPath cfg.imgDirName) fA)],
        hashToPath := [(sha256 c, fA)],
        events := [Event.fetched A,
                   Event.wrote (pathJoin (legacyImagesDir cfg) fA) c,
                   Event.fetched B] } := by
  have hne : ¬ A = B := hAB
  have hne2 : ¬ B = A := fun h => hAB h.symm
  have step1 : legacyStep cfg fetch sha256 md5hex ⟨[], [], []⟩ A = Except.ok
      ⟨[(A, pathJoin (pyOr cfg.imgPublicPath cfg.imgDirName) fA)], [(sha256 c, fA)],
       [Event.fetched A, Event.wrote (pathJoin (legacyImagesDir cfg) fA) c]⟩ := by
    simp [legacyStep, hasKey, lookupM, lookupH, hsA, haA, hfA, hded, legacyTail,
      legacyCorrectPaths, setdefault]
  have step2 : legacyStep cfg fetch sha256 md5hex
      ⟨[(A, pathJoin (pyOr cfg.imgPublicPath cfg.imgDirName) fA)], [(sha256 c, fA)],
       [Event.fetched A, Event.wrote (pathJoin (legacyImagesDir cfg) fA) c]⟩ B
      = Except.ok
      ⟨[(A, pathJoin (pyOr cfg.imgPublicPath cfg.imgDirName) fA),
        (B, pathJoin (pyOr cfg.imgPublicPath cfg.imgDirName) fA)],
       [(sha256 c, fA)],
       [Event.fetched A, Event.wrote (pathJoin (legacyImagesDir cfg) fA) c,
        Event.fetched B]⟩ := by
    simp [legacyStep, hasKey, lookupM, lookupH, hsB, haB, hfB, hded, setdefault, hne, hne2]
  simp only [legacyDownloadImages, legacyRun, step1, step2]

/-- Witness for `legacy_dedup_pair_law` at a concrete pair of references
with identical bytes `[7]`. -/
theorem legacy_dedup_pair_law_witness :
    legacyDownloadImages
      { skipList := [], skipAllErrors := false, imgDirName := "images",
        imgPublicPath := "", deduplication := true, articleDir := "doc" }
      (fun u => if u = "http://a/x.png" then some ("x.png", [7])
                else if u = "http://b/y.png" then some ("y.png", [7]) else none)
      (fun c => c.headD 0) (fun _ => "9f86d081884c7d659a2feaa0c55ad015")
      ["http://a/x.png", "http://b/y.png"]
    = Except.ok
        { mapping := [("http://a/x.png", "images/x.png"),
                      ("http://b/y.png", "images/x.png")],
          hashToPath := [(7, "x.png")],
          events := [Event.fetched "http://a/x.png",
                     Event.wrote "doc/images/x.png" [7],
                     Event.fetched "http://b/y.png"] } := by
  exact legacy_dedup_pair_law
    { skipList := [], skipAllErrors := false, imgDirName := "images",
      imgPublicPath := "", deduplication := true, articleDir := "doc" }
    (fun u => if u = "http://a/x.png" then some ("x.png", [7])
              else if u = "http://b/y.png" then some ("y.png", [7]) else none)
    (fun c => c.headD 0) (fun _ => "9f86d081884c7d659a2feaa0c55ad015")
    "http://a/x.png" "http://b/y.png" "x.png" "y.png" [7]
    (by decide) (by simp) (by simp) rfl (by decide) (by decide) (by decide) (by decide)

/-- C6 (amended): once a reference has been recorded in the mapping by an
earlier successful occurrence, a later occurrence of the same reference
fails fatally with the duplicate-reference assertion before any further
work, and this failure is never recovered — the configuration, including
`skip_all_errors`, is arbitrary here. -/
theorem duplicate_after_recorded_aborts
    (cfg : MTConfig) (isUrl : String → Bool) (remote : String → Option (String × Content))
    (readFile : String → Option Content) (writeOk : String → Content → Bool)
    (md5hex : String → String) (xs ys : List String) (u : String) (st0 : MTSt)
    (hxs : mtDownloadImages cfg isUrl remote readFile writeOk md5hex xs = Except.ok st0)
    (hkey : hasKey st0.mapping u = true) :
    mtDownloadImages cfg isUrl remote readFile writeOk md5hex (xs ++ u :: ys) =
      Except.error (Fatal.assertionError u) := by
  unfold mtDownloadImages at hxs ⊢
  rw [mtRun_append, hxs]
  simp [mtRun, mtStep, hkey]

/-- Witness for `duplicate_after_recorded_aborts`: the same reference twice,
the first occurrence downloaded and recorded, `skip_all_errors` set — the
second occurrence still aborts the run. -/
theorem duplicate_after_recorded_aborts_witness :
    mtDownloadImages
      { articleBaseUrl := "", skipList := [], skipAllErrors := true,
        imgDirName := ["images"], imgPublicPath := none,
        processLocalImages := false, articleParentDir := ["doc"] }
      (fun s => strStarts s "http")
      (fun u => if u = "http://a/x.png" then some ("x.png", [7]) else none)
      (fun _ => none) (fun _ _ => true) (fun _ => "h")
      ["http://a/x.png", "http://a/x.png"]
    = Except.error (Fatal.assertionError "http://a/x.png") := by
  exact duplicate_after_recorded_aborts
    { articleBaseUrl := "", skipList := [], skipAllErrors := true,
      imgDirName := ["images"], imgPublicPath := none,
      processLocalImages := false, articleParentDir := ["doc"] }
    (fun s => strStarts s "http")
    (fun u => if u = "http://a/x.png" then some ("x.png", [7]) else none)
    (fun _ => none) (fun _ _ => true) (fun _ => "h")
    ["http://a/x.png"] [] "http://a/x.png"
    ⟨[("http://a/x.png", "images/x.png")],
     [Event.fetched "http://a/x.png", Event.wrote "doc/images/x.png" [7]]⟩
    (by rfl) (by rfl)

/-- C5: for a reference classified as local while local-image processing is
disabled, the no-base-URL half of the claim holds (skip, no mapping entry),
but the base-URL half does not: the reference is rewritten to
`base_url + "/" + reference` and then obtained by a LOCAL FILE READ of that
rewritten string, not by a remote fetch — the `image_path_is_url` flag was
computed before the rewrite and is not recomputed.  The second conjunct
shows the outcome is independent of the remote fetcher entirely, and the
third shows the failing read is logged as a local read of the rewritten
reference. -/
theorem mt_local_with_base_url_reads_locally
    (cfg : MTConfig) (isUrl : String → Bool) (remote : String → Option (String × Content))
    (readFile : String → Option Content) (writeOk : String → Content → Bool)
    (md5hex : String → String) (st : MTSt) (u : String)
    (h1 : hasKey st.mapping u = false) (h2 : u ∉ cfg.skipList)
    (h3 : isUrl u = false) (h4 : cfg.processLocalImages = false) :
    (cfg.articleBaseUrl = "" →
      mtStep cfg isUrl remote readFile writeOk md5hex st u = Except.ok st) ∧
    (cfg.articleBaseUrl ≠ "" →
      (∀ remote2, mtStep cfg isUrl remote2 readFile writeOk md5hex st u =
        mtStep cfg isUrl remote readFile writeOk md5hex st u) ∧
      (readFile (cfg.articleBaseUrl ++ "/" ++ u) = none →
        mtStep cfg isUrl remote readFile writeOk md5hex st u =
          (if cfg.skipAllErrors then
            Except.ok { st with events :=
              st.events ++ [Event.readLocal (cfg.articleBaseUrl ++ "/" ++ u)] }
          else Except.error (Fatal.getImageError (cfg.articleBaseUrl ++ "/" ++ u))))) := by
  constructor
  · intro hb
    simp [mtStep, h1, h2, h3, h4, hb]
  · intro hb
    constructor
    · intro remote2
      simp [mtStep, h1, h2, h3, h4, hb]
    · intro hrf
      simp [mtStep, h1, h2, h3, h4, hb, hrf]

/-- Witness for `mt_local_with_base_url_reads_locally`: the local reference
`img/a.png` with base URL `http://example.com` is read as the local file
`http://example.com/img/a.png`, which fails, and with `skip_all_errors` the
run records only the local read attempt. -/
theorem mt_local_with_base_url_reads_locally_witness :
    mtStep
      { articleBaseUrl := "http://example.com", skipList := [], skipAllErrors := true,
        imgDirName := ["images"], imgPublicPath := none,
        processLocalImages := false, articleParentDir := ["doc"] }
      (fun s => strStarts s "http") (fun _ => none) (fun _ => none)
      (fun _ _ => true) (fun _ => "h") ⟨[], []⟩ "img/a.png"
    = Except.ok ⟨[], [Event.readLocal "http://example.com/img/a.png"]⟩ := by
  exact ((mt_local_with_base_url_reads_locally
    { articleBaseUrl := "http://example.com", skipList := [], skipAllErrors := true,
      imgDirName := ["images"], imgPublicPath := none,
      processLocalImages := false, articleParentDir := ["doc"] }
    (fun s => strStarts s "http") (fun _ => none) (fun _ => none)
    (fun _ _ => true) (fun _ => "h") ⟨[], []⟩ "img/a.png"
    (by rfl) (by simp) (by rfl) (by rfl)).2 (by decide)).2 (by rfl)

/-- C4: fetch-failure policy of the package variant, for a run of distinct
remote references with an empty skip list containing a reference whose
download raises.  With `skip_all_errors` set (and a reliable writer, so no
unrelated failure intervenes) the run completes and the failing reference
is omitted from the returned mapping; without the flag the whole run aborts
with an error, so no mapping is returned — there is no partial-success
return value. -/
theorem fetch_failure_policy
    (cfg : MTConfig) (isUrl : String → Bool) (remote : String → Option (String × Content))
    (readFile : String → Option Content) (writeOk : String → Content → Bool)
    (md5hex : String → String) (refs : List String) (u : String)
    (hsk : cfg.skipList = []) (hurl : ∀ v ∈ refs, isUrl v = true)
    (hnd : refs.Nodup) (hu : u ∈ refs) (hf : remote u = none) :
    (cfg.skipAllErrors = true → (∀ p c, writeOk p c = true) →
      ∃ st1, mtDownloadImages cfg isUrl remote readFile writeOk md5hex refs =
          Except.ok st1 ∧ hasKey st1.mapping u = false) ∧
    (cfg.skipAllErrors = false →
      ∃ e, mtDownloadImages cfg isUrl remote readFile writeOk md5hex refs =
          Except.error e) := by
  constructor
  · intro hsa hw
    obtain ⟨st1, hrun, hkeys⟩ := mtRun_skipAll_ok cfg isUrl remote readFile writeOk md5hex
      hsa hsk hw refs ⟨[], []⟩ hurl hnd (fun v _ => rfl)
    refine ⟨st1, hrun, ?_⟩
    rw [hkeys u]
    simp [hasKey, lookupM, hf]
  · intro hsa
    exact mtRun_fail_aborts cfg isUrl remote readFile writeOk md5hex hsa hsk refs
      ⟨[], []⟩ hurl (fun v _ => rfl) hnd u hu hf

/-- Witness for `fetch_failure_policy` on the abort half: one remote
reference whose download fails, `skip_all_errors` unset, and the run
returns an error instead of a mapping. -/
theorem fetch_failure_policy_witness :
    ∃ e, mtDownloadImages
      { articleBaseUrl := "", skipList := [], skipAllErrors := false,
        imgDirName := ["images"], imgPublicPath := none,
        processLocalImages := false, articleParentDir := ["doc"] }
      (fun s => strStarts s "http") (fun _ => none) (fun _ => none)
      (fun _ _ => true) (fun _ => "h") ["http://a/x.png"]
    = Except.error e := by
  exact (fetch_failure_policy
    { articleBaseUrl := "", skipList := [], skipAllErrors := false,
      imgDirName := ["images"], imgPublicPath := none,
      processLocalImages := false, articleParentDir := ["doc"] }
    (fun s => strStarts s "http") (fun _ => none) (fun _ => none)
    (fun _ _ => true) (fun _ => "h") ["http://a/x.png"] "http://a/x.png"
    rfl (by intro v hv; simp at hv; subst hv; rfl) (by simp) (by simp) rfl).2 rfl

/-- C9: a failure while writing the bytes of a successfully fetched
reference aborts the run whatever the value of `skip_all_errors` is — the
configuration here is arbitrary apart from the reference being reachable:
`_write_image` is called outside the `try` block that guards only the
fetch/read step, so no mapping is returned. -/
theorem write_failure_always_aborts
    (cfg : MTConfig) (isUrl : String → Bool) (remote : String → Option (String × Content))
    (readFile : String → Option Content) (writeOk : String → Content → Bool)
    (md5hex : String → String) (xs ys : List String) (u fname : String)
    (content : Content) (st0 : MTSt)
    (hxs : mtDownloadImages cfg isUrl remote readFile writeOk md5hex xs = Except.ok st0)
    (hkey : hasKey st0.mapping u = false) (hsk : u ∉ cfg.skipList) (hurl : isUrl u = true)
    (hrem : remote u = some (fname, content))
    (hw : writeOk (joinSlash (pathDiv (mtImagesDir cfg) fname)) content = false) :
    mtDownloadImages cfg isUrl remote readFile writeOk md5hex (xs ++ u :: ys) =
      Except.error (Fatal.writeError (joinSlash (pathDiv (mtImagesDir cfg) fname))) := by
  unfold mtDownloadImages at hxs ⊢
  rw [mtRun_append, hxs]
  have hstep := mtStep_remote cfg isUrl remote readFile writeOk md5hex st0 u hkey hsk hurl
  rw [hrem] at hstep
  simp only [hw, Bool.false_eq_true, if_false] at hstep
  simp only [mtRun, hstep]

/-- Witness for `write_failure_always_aborts`: a single successfully fetched
reference whose write fails aborts the run even though `skip_all_errors`
is set. -/
theorem write_failure_always_aborts_witness :
    mtDownloadImages
      { articleBaseUrl := "", skipList := [], skipAllErrors := true,
        imgDirName := ["images"], imgPublicPath := none,
        processLocalImages := false, articleParentDir := ["doc"] }
      (fun s => strStarts s "http")
      (fun u => if u = "http://a/x.png" then some ("x.png", [1]) else none)
      (fun _ => none) (fun _ _ => false) (fun _ => "h") ["http://a/x.png"]
    = Except.error (Fatal.writeError "doc/images/x.png") := by
  exact write_failure_always_aborts
    { articleBaseUrl := "", skipList := [], skipAllErrors := true,
      imgDirName := ["images"], imgPublicPath := none,
      processLocalImages := false, articleParentDir := ["doc"] }
    (fun s => strStarts s "http")
    (fun u => if u = "http://a/x.png" then some ("x.png", [1]) else none)
    (fun _ => none) (fun _ _ => false) (fun _ => "h") [] [] "http://a/x.png" "x.png"
    [1] ⟨[], []⟩ (by rfl) (by rfl) (by simp) (by rfl) (by rfl) (by rfl)

/-- C10: legacy classification.  A reference is treated as remote exactly
when its string starts with the literal text `http` or `ftp` (first
conjunct, the classifier itself).  In any completed run, a reference with
any other start is omitted from the mapping and never fetched (second
conjunct), while every listed, non-skipped reference that merely begins
with those letters — such as the local-looking path `ftproot/a.png` — has a
fetch attempted (third conjunct). -/
theorem legacy_url_classification
    (cfg : LegacyConfig) (fetch : String → Option (String × Content))
    (sha256 : Content → Nat) (md5hex : String → String)
    (refs : List String) (st1 : LegacySt)
    (hrun : legacyDownloadImages cfg fetch sha256 md5hex refs = Except.ok st1) :
    (∀ u, isAllowedUrlStart u = (strStarts u "http" || strStarts u "ftp")) ∧
    (∀ u, isAllowedUrlStart u = false →
      lookupM st1.mapping u = none ∧ Event.fetched u ∉ st1.events) ∧
    (∀ u ∈ refs, u ∉ cfg.skipList → isAllowedUrlStart u = true →
      Event.fetched u ∈ st1.events) := by
  unfold legacyDownloadImages at hrun
  refine ⟨?_, ?_, ?_⟩
  · intro u
    simp [isAllowedUrlStart, allowedUrlStarts]
  · intro u hal
    have h := legacyRun_ok_preserve cfg fetch sha256 md5hex refs ⟨[], [], []⟩ st1 hrun u hal
    refine ⟨by simpa [lookupM] using h.1, ?_⟩
    intro hin
    have h2 := h.2.mp hin
    simp at h2
  · intro u hu hsk hal
    exact legacyRun_ok_fetched cfg fetch sha256 md5hex refs ⟨[], [], []⟩ st1 hrun u hu hsk hal

/-- Witness for `legacy_url_classification` on a completed concrete run:
`ftproot/a.png` is fetched (it merely starts with `ftp`), while
`/local/b.png` is absent from the mapping and never fetched. -/
theorem legacy_url_classification_witness :
    lookupM [("ftproot/a.png", "images/a.png")] "/local/b.png" = none ∧
    Event.fetched "ftproot/a.png" ∈
      [Event.fetched "ftproot/a.png", Event.wrote "doc/images/a.png" [1]] := by
  have h := legacy_url_classification
    { skipList := [], skipAllErrors := false, imgDirName := "images",
      imgPublicPath := "", deduplication := false, articleDir := "doc" }
    (fun u => if u = "ftproot/a.png" then some ("a.png", [1]) else none)
    (fun c => c.headD 0) (fun _ => "h")
    ["ftproot/a.png", "/local/b.png"]
    ⟨[("ftproot/a.png", "images/a.png")], [],
     [Event.fetched "ftproot/a.png", Event.wrote "doc/images/a.png" [1]]⟩
    (by rfl)
  exact ⟨(h.2.1 "/local/b.png" (by rfl)).1,
         h.2.2 "ftproot/a.png" (by simp) (by simp) (by rfl)⟩

/-- Witness for `collision_rename_law` at the claim's example references
with distinct contents `[1]` and `[2]`. -/
theorem collision_rename_law_witness :
    legacyDownloadImages
      { skipList := [], skipAllErrors := false, imgDirName := "images",
        imgPublicPath := "", deduplication := false, articleDir := "doc" }
      (fun u => if u = "http://a.com/x.png" then some ("x.png", [1])
                else if u = "http://b.com/x.png" then some ("x.png", [2]) else none)
      (fun c => c.headD 0) (fun _ => "5d41402abc4b2a76b9719d911017c592")
      ["http://a.com/x.png", "http://b.com/x.png"]
    = Except.ok
        { mapping := [("http://a.com/x.png", "images/x.png"),
                      ("http://b.com/x.png",
                       "images/5d41402abc4b2a76b9719d911017c592_x.png")],
          hashToPath := [],
          events := [Event.fetched "http://a.com/x.png",
                     Event.wrote "doc/images/x.png" [1],
                     Event.fetched "http://b.com/x.png",
                     Event.wrote "doc/images/5d41402abc4b2a76b9719d911017c592_x.png" [2]] }
    ∧ ("images/x.png" : String) ≠ "images/5d41402abc4b2a76b9719d911017c592_x.png" := by
  have h := collision_rename_law
    { skipList := [], skipAllErrors := false, imgDirName := "images",
      imgPublicPath := "", deduplication := false, articleDir := "doc" }
    (fun u => if u = "http://a.com/x.png" then some ("x.png", [1])
              else if u = "http://b.com/x.png" then some ("x.png", [2]) else none)
    (fun c => c.headD 0) (fun _ => "5d41402abc4b2a76b9719d911017c592")
    "http://a.com/x.png" "http://b.com/x.png" "x.png" [1] [2]
    (by decide) (by simp) (by simp) rfl (by decide) (by decide) rfl rfl
    (by decide) (by decide) (by decide)
  exact ⟨h.1.1, h.1.2⟩
